import Mathlib

/-!
Verification development for the sequence-search and sampling engine of
`prob_seq_queries` (`src/seq_queries/sample.py`, `src/seq_queries/utils.py`).

The engine is embedded shallowly over exact rationals.  Probability rows are
`List ℚ`; the neural oracle is an explicit function parameter; log-space
bookkeeping is generic over an ordered additive carrier `R` together with a
monotone-log parameter `lg : ℚ → R`, which lets concrete runs instantiate
`R` with positive rationals under multiplication (an exact order- and
addition-preserving image of real logarithms on positive rationals).
Floating NaN/inf behaviour of numpy scalar arithmetic is modelled by the
small `NumF` type, and the `torch.isnan` test inside the beam-search assert
is a boolean predicate parameter.
-/

deriving instance DecidableEq for Except

namespace SeqQueries

/-! ## Probability-row primitives shared by both drivers -/

/-- `probs + eps` (elementwise), as in `new_prob_state[0] + eps`
(sample.py lines 164 and 537) and the root `prob_state[0] + eps`. -/
def addEpsRow (eps : ℚ) (row : List ℚ) : List ℚ := row.map (· + eps)

/-- `probs[:, excluded] = eps/2`: assign `eps/2` on the excluded token
columns of one row (sample.py lines 172, 545, 677). -/
def maskAssignRow (excluded : List ℕ) (eps : ℚ) (row : List ℚ) : List ℚ :=
  (List.range row.length).map (fun j => if j ∈ excluded then eps / 2 else row.getD j 0)

/-- `probs[:, excluded] *= eps/2`: multiply excluded columns by `eps/2`
(sample.py line 254, importance-sampling root). -/
def maskMulRow (excluded : List ℕ) (eps : ℚ) (row : List ℚ) : List ℚ :=
  (List.range row.length).map (fun j =>
    if j ∈ excluded then row.getD j 0 * (eps / 2) else row.getD j 0)

/-- `probs /= probs.sum(-1)`: renormalize one row by its sum
(sample.py lines 256, 546, 678). -/
def normalizeRow (row : List ℚ) : List ℚ := row.map (· / row.sum)

/-- Inclusive prefix sums, as `torch.cumsum(prob, 0)` (sample.py line 325). -/
def cumsumQ (l : List ℚ) : List ℚ := (l.scanl (· + ·) 0).tail

/-- Concatenation of a list of lists (tensor `flatten` over rows). -/
def catLists {α : Type} : List (List α) → List α
  | [] => []
  | x :: xs => x ++ catLists xs

/-! ## Coverage policy (`get_beam_width`, `get_beam_coverage`, `prepare_beams`) -/

/-- `get_beam_width` (sample.py lines 310-330).  With `percentile = False` the
current beam value (an integer width travelling through the coverage slot) is
returned as is; otherwise the count of sorted probabilities whose cumulative
sum first reaches the coverage threshold, inclusive. -/
def get_beam_width (curr_beam : ℚ) (prob : List ℚ) (percentile : Bool) : ℕ :=
  if !percentile then ⌊curr_beam⌋.toNat
  else
    match (cumsumQ prob).findIdx? (fun c => curr_beam ≤ c) with
    | some k => k + 1
    | none => (cumsumQ prob).length + 1

/-- The three coverage policy kinds accepted by `prepare_beams`. -/
inductive CoverageType
  | fixed_width
  | backoff
  | interpolate
deriving DecidableEq

/-- `get_beam_coverage` (sample.py lines 393-416): `fixed_width` keeps the
original value, `backoff` multiplies the current coverage by the original
per-step threshold, and `interpolate` subtracts the per-history
interpolation step. -/
def get_beam_coverage (ct : CoverageType) (cov orig : ℚ) (interpolateStep : List ℚ)
    (index : ℕ) : ℚ :=
  match ct with
  | .fixed_width => orig
  | .backoff => cov * orig
  | .interpolate => cov - interpolateStep.getD index 0

/-- One element of a per-history beam-width list: Python `int` or `float`. -/
inductive BWElem
  | intE (n : ℤ)
  | floatE (q : ℚ)
deriving DecidableEq

/-- The dynamic type of the `beam_widths` argument: an `int`, a `float`
coverage fraction, a list of either, or any other Python value. -/
inductive BeamWidths
  | intW (n : ℤ)
  | floatW (q : ℚ)
  | listW (xs : List BWElem)
  | otherW
deriving DecidableEq

/-- A prepared beam value: an absolute integer width, a raw float kept as is
(mixed lists whose first element is an `int` are passed through untouched),
or the symbolic `s`-th root `rootv c s` denoting `np.power(c, 1/s)`. -/
inductive BeamVal
  | ival (n : ℤ)
  | fval (q : ℚ)
  | rootv (c : ℚ) (s : ℤ)
deriving DecidableEq

/-- Raw pass-through of one beam-width list element (the `else` branch of the
list case of `_prepare_beams_backoff`, which returns `beam_widths` as is). -/
def bwElemRaw : BWElem → BeamVal
  | .intE n => .ival n
  | .floatE q => .fval q

/-- `_prepare_beams_backoff` (sample.py lines 462-493).  Also serves the
`fixed_width` policy.  Note: the scalar-float branch performs no range
validation, and a list is classified by the type of its first element only. -/
def prepare_beams_backoff (beam_widths : BeamWidths) (num_hists : ℕ)
    (seq_lens : List ℤ) : Except String (List BeamVal × Bool) :=
  match beam_widths with
  | .intW n => .ok (List.replicate num_hists (BeamVal.ival n), false)
  | .floatW q =>
      .ok ((List.range num_hists).map (fun i => BeamVal.rootv q (seq_lens.getD i 0)), true)
  | .listW xs =>
      if xs.length ≠ num_hists then .error "Histories and beam widths not aligned"
      else
        match xs.headD (BWElem.intE 0) with
        | .floatE _ =>
            .ok ((List.range num_hists).map (fun i =>
              match xs.getD i (BWElem.intE 0) with
              | .floatE q => BeamVal.rootv q (seq_lens.getD i 0)
              | .intE n => BeamVal.rootv (n : ℚ) (seq_lens.getD i 0)), true)
        | .intE _ => .ok (xs.map bwElemRaw, false)
  | .otherW => .error "Beam data type must be int, float or List[int/float]"

/-- Numpy scalar values as produced by the interpolation-step arithmetic:
a finite rational, signed infinities, or NaN. -/
inductive NumF
  | fin (q : ℚ)
  | inf
  | neginf
  | nan
deriving DecidableEq

/-- Numpy float subtraction on finite values. -/
def NumF.sub : NumF → NumF → NumF
  | .fin a, .fin b => .fin (a - b)
  | _, _ => .nan

/-- Numpy float division: division by zero yields `inf`/`neginf` for a
nonzero numerator and `nan` for `0/0` (a RuntimeWarning, not an exception). -/
def NumF.div : NumF → NumF → NumF
  | .fin a, .fin b =>
      if b = 0 then (if a = 0 then .nan else if 0 < a then .inf else .neginf)
      else .fin (a / b)
  | _, _ => .nan

/-- Finiteness test for `NumF`. -/
def NumF.isFinite : NumF → Bool
  | .fin _ => true
  | _ => false

/-- The interpolation step for one history:
`(orig_beam_widths[i] - beam_widths) / (seq_lens[i] - 1)`
(sample.py lines 445-447), with numpy division semantics. -/
def interpolateStepEntry (origv c : ℚ) (seq_len : ℤ) : NumF :=
  NumF.div (NumF.sub (NumF.fin origv) (NumF.fin c)) (NumF.fin (seq_len - 1))

/-- `_prepare_beams_interpolate` (sample.py lines 434-459).  `root c s`
abstracts `np.power(c, 1/s)` (an exact positive real power; for `s = 1` it is
the identity on `c`).  An all-int list falls through every branch and then
reads the never-assigned `orig_beam_widths`, which raises
`UnboundLocalError` in Python. -/
def prepare_beams_interpolate (root : ℚ → ℤ → ℚ) (beam_widths : BeamWidths)
    (num_hists : ℕ) (seq_lens : List ℤ) :
    Except String (List BeamVal × Bool × List NumF) :=
  match beam_widths with
  | .floatW q =>
      if 0 < q ∧ q < 1 then
        .ok ((List.range num_hists).map (fun i => BeamVal.rootv q (seq_lens.getD i 0)),
             true,
             (List.range num_hists).map (fun i =>
               interpolateStepEntry (root q (seq_lens.getD i 0)) q (seq_lens.getD i 0)))
      else .error "Coverage must be between 0 and 1"
  | .listW xs =>
      if xs.length ≠ num_hists then .error "Histories and beam widths not aligned"
      else
        match xs.headD (BWElem.intE 0) with
        | .floatE _ =>
            .ok ((List.range num_hists).map (fun i =>
                   match xs.getD i (BWElem.intE 0) with
                   | .floatE q => BeamVal.rootv q (seq_lens.getD i 0)
                   | .intE n => BeamVal.rootv (n : ℚ) (seq_lens.getD i 0)),
                 true,
                 (List.range num_hists).map (fun i =>
                   match xs.getD i (BWElem.intE 0) with
                   | .floatE q => interpolateStepEntry (root q (seq_lens.getD i 0)) q (seq_lens.getD i 0)
                   | .intE n => interpolateStepEntry (root (n : ℚ) (seq_lens.getD i 0)) (n : ℚ) (seq_lens.getD i 0)))
        | .intE _ => .error "UnboundLocalError: orig_beam_widths referenced before assignment"
  | _ => .error "Beam data type must be float or List[float]"

/-- `prepare_beams` dispatcher (sample.py lines 418-432).  `fixed_width` and
`backoff` both use the backoff preparer; only `interpolate` populates
`bw_params[interpolate_step]`. -/
def prepare_beams (root : ℚ → ℤ → ℚ) (ct : CoverageType) (beam_widths : BeamWidths)
    (num_hists : ℕ) (seq_lens : List ℤ) :
    Except String (List BeamVal × Bool × List NumF) :=
  match ct with
  | .fixed_width => (prepare_beams_backoff beam_widths num_hists seq_lens).map
      (fun p => (p.1, p.2, []))
  | .backoff => (prepare_beams_backoff beam_widths num_hists seq_lens).map
      (fun p => (p.1, p.2, []))
  | .interpolate => prepare_beams_interpolate root beam_widths num_hists seq_lens

/-- The backoff coverage-threshold sequence for one history:
`all_beam_coverages[i]` starts at the prepared per-step root value and each
beam-search iteration appends `get_beam_coverage` of the previous value
(sample.py lines 577-581, coverage type `backoff`). -/
def backoffThreshold (orig : ℚ) : ℕ → ℚ
  | 0 => orig
  | n + 1 => get_beam_coverage .backoff (backoffThreshold orig n) orig [] 0

/-! ## The multiplicative log carrier

Real logarithms on positive rationals are order- and addition-faithfully
represented by the positive rationals themselves: `MulLog q` stands for
`log q`, with `MulLog` addition given by multiplication of the underlying
values and the order inherited from `ℚ`.  Sorting, comparing and summing
log-probabilities in this carrier agrees exactly with the real-valued
computation whenever all probabilities are positive rationals. -/

structure MulLog where
  val : ℚ
deriving DecidableEq

instance : LinearOrder MulLog :=
  LinearOrder.lift' MulLog.val (fun a b h => by cases a; cases b; simpa using h)

instance : Add MulLog := ⟨fun a b => ⟨a.val * b.val⟩⟩

instance : Inhabited MulLog := ⟨⟨1⟩⟩

/-- `torch.log` into the multiplicative carrier. -/
def mulLg (q : ℚ) : MulLog := ⟨q⟩

/-- `torch.exp` out of the multiplicative carrier. -/
def mulEx (l : MulLog) : ℚ := l.val

/-! ## Descending sort with indices (`torch.sort(..., descending=True)`)

An insertion sort over value/flat-index pairs, descending by value with ties
broken by ascending flat index.  Torch leaves tie order unspecified; all
concrete runs below are arranged so that every decisive comparison is
tie-free, making them independent of the tie rule. -/

section SortDesc

variable {R : Type} [LinearOrder R]

def insertDescBy (x : R × ℕ) : List (R × ℕ) → List (R × ℕ)
  | [] => [x]
  | y :: ys =>
      if y.1 < x.1 ∨ (¬ x.1 < y.1 ∧ x.2 ≤ y.2) then x :: y :: ys
      else y :: insertDescBy x ys

def sortDescEnum (l : List (R × ℕ)) : List (R × ℕ) := l.foldr insertDescBy []

/-- `torch.sort(v.flatten(), descending=True)`: the pair of sorted values and
their original flat indices. -/
def torchSortDesc (l : List R) : List R × List ℕ :=
  let s := sortDescEnum (l.enum.map (fun p => (p.2, p.1)))
  (s.map (·.1), s.map (·.2))

end SortDesc

/-! ## Beam search engine (`beam_search_inner_loop`, `sample_beam_search`)

One record per history carries the candidate token sequences, the stored
log-probability vector and flat-index vector (`sorted_probs_inds[i]`), the
per-candidate opaque states, and the running coverage/width lists.  The ghost
fields `origins`, `slpLog`, `keptLog` record, for each executed step, the
recovered originating rows, the stored log-probability vector after the step,
and the top-`beam_width` sorted joint values of the step; they instrument the
run for the theorems and influence nothing. -/

structure BSHist (R S : Type) where
  seqs : List (List ℕ)
  slpVals : List R
  slpInds : List ℕ
  states : List S
  coverages : List ℚ
  widths : List ℕ
  origins : List (List ℕ)
  slpLog : List (List R)
  keptLog : List (List R)
deriving DecidableEq

instance {R S : Type} : Inhabited (BSHist R S) :=
  ⟨⟨[], [], [], [], [], [], [], [], []⟩⟩

section BeamCore

variable {R S : Type} [LinearOrder R] [Add R] [Inhabited R] [Inhabited S]

/-- The joint log-probability surface of one active history at one step:
`sorted_probs_inds[i][0][:all_beam_widths[i][-1]].reshape(-1,1)
 + torch.log(new_probs[i])`, flattened row-major (sample.py line 552). -/
def bsJoint (lg : ℚ → R) (h : BSHist R S) (np : List (List ℚ)) : List R :=
  catLists (((h.slpVals.take (h.widths.getLastD 0)).zip np).map
    (fun Lrow => Lrow.2.map (fun p => Lrow.1 + lg p)))

/-- `sorted_probs = torch.exp(vals); sorted_probs /= sorted_probs.sum()`
(sample.py lines 568-569). -/
def bsSortedNorm (ex : R → ℚ) (svals : List R) : List ℚ :=
  (svals.map ex).map (fun p => p / (svals.map ex).sum)

/-- Per-history update of one beam-search iteration (sample.py lines
543-608): excluded-token masking and renormalization, joint surface, sort,
NaN assert, width selection, coverage advance, and the gather of stored
log-probabilities, states and token sequences by the recovered rows.
The stored log-probability vector is `sorted_vals[seq_inds]` exactly as in
line 591 of the source. -/
def bsUpdateHist (lg : ℚ → R) (ex : R → ℚ) (isnanQ : ℚ → Bool) (vocab : ℕ)
    (excluded : List ℕ) (eps : ℚ) (percentile : Bool) (ct : CoverageType)
    (iSteps : List ℚ) (origCov : List ℚ) (i : ℕ) (h : BSHist R S) :
    Option (List (List ℚ) × List S) → Except String (BSHist R S)
  | none => .ok h
  | some (np0, newStates) =>
      let np := np0.map (fun row => normalizeRow (maskAssignRow excluded eps row))
      let sorted := torchSortDesc (bsJoint lg h np)
      let svals := sorted.1
      let sinds := sorted.2
      if (bsSortedNorm ex svals).any isnanQ then
        .error "Nans in sorted probabilities"
      else
        let beam_width := get_beam_width (h.coverages.getLastD 0) (bsSortedNorm ex svals) percentile
        let widths' := h.widths ++ [beam_width]
        let coverages' :=
          if percentile then
            h.coverages ++ [get_beam_coverage ct (h.coverages.getLastD 0) (origCov.getD i 0) iSteps i]
          else h.coverages
        let tokens := sinds.take beam_width
        let seq_inds := tokens.map (· / vocab)
        let best_tokens := tokens.map (· % vocab)
        let slpVals' := seq_inds.map (fun j => svals.getD j default)
        let states' := seq_inds.map (fun j => newStates.getD j default)
        let seqs' := (seq_inds.zip best_tokens).map (fun jt => (h.seqs.getD jt.1 []) ++ [jt.2])
        .ok { seqs := seqs', slpVals := slpVals', slpInds := best_tokens,
              states := states', coverages := coverages', widths := widths',
              origins := h.origins ++ [seq_inds],
              slpLog := h.slpLog ++ [slpVals'],
              keptLog := h.keptLog ++ [svals.take beam_width] }

/-- Phase one of an iteration (sample.py lines 528-540): query the oracle for
every still-active history with the last token of each candidate row and its
states, adding `eps` to the returned probabilities; inactive histories get
`None`. -/
def bsPhase1 (model : List (List ℕ) → Option (List S) → (List (List ℚ) × List S))
    (eps : ℚ) (seqLens : List ℤ) (pos : ℕ) :
    ℕ → List (BSHist R S) → List (Option (List (List ℚ) × List S))
  | _, [] => []
  | i, h :: hs =>
      (if (pos : ℤ) < seqLens.getD i 0 then
        let r := model (h.seqs.map (fun s => [s.getLastD 0])) (some h.states)
        some (r.1.map (addEpsRow eps), r.2)
      else none) :: bsPhase1 model eps seqLens pos (i + 1) hs

/-- The oracle calls issued during one iteration over `n` histories starting
at index `i`: the pair `(pos, history index)` for every active history. -/
def bsCalls (seqLens : List ℤ) (pos : ℕ) : ℕ → ℕ → List (ℕ × ℕ)
  | _, 0 => []
  | i, n + 1 =>
      (if (pos : ℤ) < seqLens.getD i 0 then [(pos, i)] else []) ++
        bsCalls seqLens pos (i + 1) n

/-- Phase two of an iteration (sample.py lines 543-608): the per-history
updates applied in index order, a failed assert aborting the whole call. -/
def bsPhase2 (lg : ℚ → R) (ex : R → ℚ) (isnanQ : ℚ → Bool) (vocab : ℕ)
    (excluded : List ℕ) (eps : ℚ) (percentile : Bool) (ct : CoverageType)
    (iSteps : List ℚ) (origCov : List ℚ) :
    ℕ → List (BSHist R S) → List (Option (List (List ℚ) × List S)) →
    Except String (List (BSHist R S))
  | _, [], _ => .ok []
  | i, h :: hs, os =>
      match bsUpdateHist lg ex isnanQ vocab excluded eps percentile ct iSteps origCov i h (os.headD none) with
      | .error e => .error e
      | .ok h' =>
          match bsPhase2 lg ex isnanQ vocab excluded eps percentile ct iSteps origCov (i + 1) hs os.tail with
          | .error e => .error e
          | .ok rest => .ok (h' :: rest)

/-- `beam_search_inner_loop` (sample.py lines 496-609): iterate the two
phases over the given positions, accumulating the oracle-call trace. -/
def bsInner (model : List (List ℕ) → Option (List S) → (List (List ℚ) × List S))
    (lg : ℚ → R) (ex : R → ℚ) (isnanQ : ℚ → Bool) (vocab : ℕ)
    (excluded : List ℕ) (eps : ℚ) (percentile : Bool) (ct : CoverageType)
    (iSteps : List ℚ) (origCov : List ℚ) (seqLens : List ℤ) :
    List ℕ → List (BSHist R S) → Except String (List (BSHist R S) × List (ℕ × ℕ))
  | [], hists => .ok (hists, [])
  | pos :: rest, hists =>
      match bsPhase2 lg ex isnanQ vocab excluded eps percentile ct iSteps origCov 0 hists
          (bsPhase1 model eps seqLens pos 0 hists) with
      | .error e => .error e
      | .ok hists' =>
          match bsInner model lg ex isnanQ vocab excluded eps percentile ct iSteps origCov seqLens rest hists' with
          | .error e => .error e
          | .ok r => .ok (r.1, bsCalls seqLens pos 0 hists.length ++ r.2)

end BeamCore

/-- Generation lengths `seq_lens = total_seq_len_i - hist_len_i`
(sample.py lines 654-655). -/
def seqLensZOf (histories : List (List ℕ)) (totalSeqLens : List ℤ) : List ℤ :=
  (totalSeqLens.zip (histories.map List.length)).map (fun p => p.1 - (p.2 : ℤ))

/-- Numeric reading of a prepared beam value: integer widths read as their
value; float roots have no exact rational value and are read as the supplied
interpretation `rootQ`. -/
def BeamVal.interp (rootQ : ℚ → ℤ → ℚ) : BeamVal → ℚ
  | .ival n => (n : ℚ)
  | .fval q => q
  | .rootv c s => rootQ c s

/-- Numeric reading of an interpolation step (finite values only; the loop is
never exercised on non-finite steps in this development). -/
def NumF.toQ : NumF → ℚ
  | .fin q => q
  | _ => 0

section BeamRoot

variable {R S : Type} [LinearOrder R] [Add R] [Inhabited R] [Inhabited S]

/-- The root frontier of one history (sample.py lines 663-720): a single
oracle query on the whole history, `+ eps`, excluded-token masking and
renormalization, a descending sort of the single distribution, the root
width from the coverage policy applied to the unsorted renormalized row,
the log of the sorted values, the initial states tiled to
`min(beam_width, vocab)` rows, and the seed sequences
`history ++ top token`. -/
def bsRootHist (model : List (List ℕ) → Option (List S) → (List (List ℚ) × List S))
    (lg : ℚ → R) (vocab : ℕ) (excluded : List ℕ) (eps : ℚ) (percentile : Bool)
    (origCovQ : ℚ) (history : List ℕ) : BSHist R S :=
  let r := model [history] none
  let prow := normalizeRow (maskAssignRow excluded eps (addEpsRow eps (r.1.headD [])))
  let sorted := torchSortDesc prow
  let bw := get_beam_width origCovQ prow percentile
  { seqs := ((List.replicate (min bw vocab) history).zip (sorted.2.take bw)).map
      (fun p => p.1 ++ [p.2]),
    slpVals := sorted.1.map lg,
    slpInds := sorted.2,
    states := catLists (List.replicate (min bw vocab) r.2),
    coverages := [origCovQ],
    widths := [bw],
    origins := [], slpLog := [], keptLog := [] }

/-- `sample_beam_search` after beam preparation (sample.py lines 649-741):
build the root frontiers, then run `beam_search_inner_loop` over positions
`range(1, max(seq_lens) + 1)`.  Returns the final per-history records and
the oracle-call trace, the root query of history `i` recorded as `(0, i)`. -/
def sampleBeamSearchCore
    (model : List (List ℕ) → Option (List S) → (List (List ℚ) × List S))
    (lg : ℚ → R) (ex : R → ℚ) (isnanQ : ℚ → Bool)
    (histories : List (List ℕ)) (vocab : ℕ) (origCovQ : List ℚ)
    (percentile : Bool) (totalSeqLens : List ℤ) (excluded : List ℕ) (eps : ℚ)
    (ct : CoverageType) (iSteps : List ℚ) :
    Except String (List (BSHist R S) × List (ℕ × ℕ)) :=
  let seqLens := seqLensZOf histories totalSeqLens
  let hists0 := (List.range histories.length).map (fun i =>
    bsRootHist model lg vocab excluded eps percentile (origCovQ.getD i 0)
      (histories.getD i []))
  let rootCalls := (List.range histories.length).map (fun i => ((0 : ℕ), i))
  match bsInner model lg ex isnanQ vocab excluded eps percentile ct iSteps
      origCovQ seqLens (List.range' 1 (seqLens.foldr max 0).toNat) hists0 with
  | .error m => .error m
  | .ok (out, tr) => .ok (out, rootCalls ++ tr)

/-- Full `sample_beam_search` entry: `prepare_beams` runs first and any
preparation failure aborts before the first oracle query; otherwise the
prepared beams feed the core search. -/
def sampleBeamSearchTop (rootQ : ℚ → ℤ → ℚ)
    (model : List (List ℕ) → Option (List S) → (List (List ℚ) × List S))
    (lg : ℚ → R) (ex : R → ℚ) (isnanQ : ℚ → Bool)
    (histories : List (List ℕ)) (vocab : ℕ) (beamWidths : BeamWidths)
    (totalSeqLens : List ℤ) (excluded : List ℕ) (eps : ℚ) (ct : CoverageType) :
    Except String (List (BSHist R S) × List (ℕ × ℕ)) :=
  match prepare_beams rootQ ct beamWidths histories.length (seqLensZOf histories totalSeqLens) with
  | .error m => .error m
  | .ok (origs, percentile, steps) =>
      sampleBeamSearchCore model lg ex isnanQ histories vocab
        (origs.map (BeamVal.interp rootQ)) percentile totalSeqLens excluded eps
        ct (steps.map NumF.toQ)

end BeamRoot

/-! ## Importance sampler (`importance_sampling_inner_loop`,
`mc_sample_importance`)

Randomness is explicit: a generator family `gf : ℤ → ℕ → ℚ` models the
process-wide torch PRNG as a pure function of the seed and a draw counter,
and `torch.multinomial` is modelled as inverse-CDF selection on the supplied
weights — both are external to the repository and only their determinism
matters here. -/

structure Rng where
  seed : ℤ
  ctr : ℕ
deriving DecidableEq

/-- One uniform draw from the seeded stream. -/
def Rng.draw (gf : ℤ → ℕ → ℚ) (r : Rng) : ℚ × Rng :=
  (gf r.seed r.ctr, { r with ctr := r.ctr + 1 })

/-- Models one row of `torch.multinomial(weights, 1)`: pick the first index
whose inclusive cumulative weight exceeds `u * total`. -/
def multinomialPick (weights : List ℚ) (u : ℚ) : ℕ :=
  match (cumsumQ weights).findIdx? (fun c => u * weights.sum < c) with
  | some k => k
  | none => weights.length - 1

/-- One draw per weight row, threading the generator state. -/
def multinomialRows (gf : ℤ → ℕ → ℚ) : List (List ℚ) → Rng → (List ℕ × Rng)
  | [], r => ([], r)
  | row :: rows, r =>
      let d := Rng.draw gf r
      let rest := multinomialRows gf rows d.2
      (multinomialPick row d.1 :: rest.1, rest.2)

/-- One history of the importance sampler: `num_seqs` growing sequences,
their running log-probabilities, and the per-row states.  The inner loop of
the source never reassigns `sorted_states`, so `states` is fixed after the
root (sample.py lines 152-187 update only `seqs` and `log_probs`). -/
structure ISHist (R S : Type) where
  seqs : List (List ℕ)
  logProbs : List R
  states : List S
deriving DecidableEq

instance {R S : Type} : Inhabited (ISHist R S) := ⟨⟨[], [], []⟩⟩

section ISCore

variable {R S : Type} [Add R] [Inhabited R] [Inhabited S]

/-- Per-history update of one importance-sampling iteration (sample.py lines
170-184): mask excluded columns to `eps/2` (no renormalization), draw one
extension per row, append it, and add the log of the drawn unnormalized
weight to the row's running log-probability. -/
def isUpdateHist (gf : ℤ → ℕ → ℚ) (lg : ℚ → R) (excluded : List ℕ) (eps : ℚ)
    (h : ISHist R S) (r : Rng) :
    Option (List (List ℚ) × List S) → (ISHist R S × Rng)
  | none => (h, r)
  | some (np0, _) =>
      let np := np0.map (maskAssignRow excluded eps)
      let draws := multinomialRows gf np r
      let seqs' := (h.seqs.zip draws.1).map (fun p => p.1 ++ [p.2])
      let logProbs' := ((h.logProbs.zip np).zip draws.1).map
        (fun p => p.1.1 + lg (p.1.2.getD p.2 0))
      ({ seqs := seqs', logProbs := logProbs', states := h.states }, draws.2)

/-- Phase one of an importance-sampling iteration (sample.py lines 152-167):
query the oracle for each unfinished history with all rows' last tokens and
the (root-era) states, adding `eps`. -/
def isPhase1 (model : List (List ℕ) → Option (List S) → (List (List ℚ) × List S))
    (eps : ℚ) (seqLens : List ℤ) (pos : ℕ) :
    ℕ → List (ISHist R S) → List (Option (List (List ℚ) × List S))
  | _, [] => []
  | i, h :: hs =>
      (if (pos : ℤ) < seqLens.getD i 0 then
        let r := model (h.seqs.map (fun s => [s.getLastD 0])) (some h.states)
        some (r.1.map (addEpsRow eps), r.2)
      else none) :: isPhase1 model eps seqLens pos (i + 1) hs

/-- Phase two: per-history sampling updates in index order, threading the
generator. -/
def isPhase2 (gf : ℤ → ℕ → ℚ) (lg : ℚ → R) (excluded : List ℕ) (eps : ℚ) :
    List (ISHist R S) → List (Option (List (List ℚ) × List S)) → Rng →
    (List (ISHist R S) × Rng)
  | [], _, r => ([], r)
  | h :: hs, os, r =>
      let u := isUpdateHist gf lg excluded eps h r (os.headD none)
      let rest := isPhase2 gf lg excluded eps hs os.tail u.2
      (u.1 :: rest.1, rest.2)

/-- `importance_sampling_inner_loop` (sample.py lines 134-187) over the given
positions, with the oracle-call trace. -/
def isInner (model : List (List ℕ) → Option (List S) → (List (List ℚ) × List S))
    (gf : ℤ → ℕ → ℚ) (lg : ℚ → R) (excluded : List ℕ) (eps : ℚ)
    (seqLens : List ℤ) :
    List ℕ → List (ISHist R S) → Rng →
    (List (ISHist R S) × Rng × List (ℕ × ℕ))
  | [], hists, r => (hists, r, [])
  | pos :: rest, hists, r =>
      let os := isPhase1 model eps seqLens pos 0 hists
      let p2 := isPhase2 gf lg excluded eps hists os r
      let rec' := isInner model gf lg excluded eps seqLens rest p2.1 p2.2
      (rec'.1, rec'.2.1, bsCalls seqLens pos 0 hists.length ++ rec'.2.2)

/-- The root frontier of one importance-sampling history (sample.py lines
240-288): one oracle query on the history, `+ eps`, multiplicative
excluded-token masking and renormalization, `num_seqs` root draws from the
masked distribution, and the gathered log-probabilities of the drawn
tokens. -/
def isRootHist (model : List (List ℕ) → Option (List S) → (List (List ℚ) × List S))
    (gf : ℤ → ℕ → ℚ) (lg : ℚ → R) (excluded : List ℕ) (eps : ℚ) (num_seqs : ℕ)
    (history : List ℕ) (r : Rng) : ISHist R S × Rng :=
  let q := model [history] none
  let prow := normalizeRow (maskMulRow excluded eps (addEpsRow eps (q.1.headD [])))
  let draws := multinomialRows gf (List.replicate num_seqs prow) r
  ({ seqs := ((List.replicate num_seqs history).zip draws.1).map (fun p => p.1 ++ [p.2]),
     logProbs := draws.1.map (fun t => lg (prow.getD t 0)),
     states := catLists (List.replicate num_seqs q.2) }, draws.2)

/-- Root frontiers for all histories in index order, threading the
generator. -/
def isRootAll (model : List (List ℕ) → Option (List S) → (List (List ℚ) × List S))
    (gf : ℤ → ℕ → ℚ) (lg : ℚ → R) (excluded : List ℕ) (eps : ℚ) (num_seqs : ℕ) :
    List (List ℕ) → Rng → (List (ISHist R S) × Rng)
  | [], r => ([], r)
  | hstry :: hrest, r =>
      let u := isRootHist model gf lg excluded eps num_seqs hstry r
      let rest := isRootAll model gf lg excluded eps num_seqs hrest u.2
      (u.1 :: rest.1, rest.2)

/-- `mc_sample_importance` (sample.py lines 195-302): root sampling for each
history, then `importance_sampling_inner_loop` over positions
`range(1, max(seq_lens))`.  Returns the per-history results and the
oracle-call trace, roots recorded as `(0, i)`. -/
def mcSampleImportance
    (model : List (List ℕ) → Option (List S) → (List (List ℚ) × List S))
    (gf : ℤ → ℕ → ℚ) (lg : ℚ → R) (histories : List (List ℕ)) (num_seqs : ℕ)
    (totalSeqLens : List ℤ) (excluded : List ℕ) (eps : ℚ) (r : Rng) :
    List (ISHist R S) × List (ℕ × ℕ) :=
  let seqLens := seqLensZOf histories totalSeqLens
  let roots := isRootAll model gf lg excluded eps num_seqs histories r
  let inner := isInner model gf lg excluded eps seqLens
    (List.range' 1 ((seqLens.foldr max 0).toNat - 1)) roots.1 roots.2
  (inner.1, (List.range histories.length).map (fun i => ((0 : ℕ), i)) ++ inner.2.2)

end ISCore

/-- The ambient process state relevant to reproducibility: the global PRNG
state mutated by `_set_random_seed` (utils.py lines 277-284). -/
structure World where
  rng : Rng
deriving DecidableEq

/-- `_set_random_seed` (utils.py lines 277-284): a zero seed is rejected by
the assert; otherwise the process RNG state is reset to a pure function of
the seed, discarding whatever state the world held before. -/
def setRandomSeedW (seed : ℤ) (_w : World) : Except String World :=
  if seed = 0 then .error "Random seed cannot be 0"
  else .ok { rng := { seed := seed, ctr := 0 } }

/-- Seed the process RNG, then run `mc_sample_importance`: the composition a
caller performs for a reproducible run. -/
def seedThenSample {R S : Type} [Add R] [Inhabited R] [Inhabited S]
    (model : List (List ℕ) → Option (List S) → (List (List ℚ) × List S))
    (gf : ℤ → ℕ → ℚ) (lg : ℚ → R) (seed : ℤ) (w : World)
    (histories : List (List ℕ)) (num_seqs : ℕ) (totalSeqLens : List ℤ)
    (excluded : List ℕ) (eps : ℚ) :
    Except String (List (ISHist R S) × List (ℕ × ℕ)) :=
  (setRandomSeedW seed w).map (fun w' =>
    mcSampleImportance model gf lg histories num_seqs totalSeqLens excluded eps w'.rng)

/-! ## Concrete oracle instances for the closed runs

All use state type `ℕ` (a per-row step counter) and exactly normalized
positive rational probability rows, so the multiplicative log carrier tracks
the real-log computation exactly and no decisive sort comparison is a tie. -/

/-- Uniform binary oracle. -/
def oracleUniform2 : List (List ℕ) → Option (List ℕ) → (List (List ℚ) × List ℕ) :=
  fun qs st =>
    match st with
    | none => ([[1/2, 1/2]], [1])
    | some sts => (qs.map (fun _ => [1/2, 1/2]), sts.map (fun c => c + 1))

/-- Vocab-3 oracle: root `(3/5, 3/10, 1/10)`; at generation steps the row for
last token 0 is `(7/20, 2/5, 1/4)` and for last token 1 is
`(9/10, 1/20, 1/20)`. -/
def oracleShift3 : List (List ℕ) → Option (List ℕ) → (List (List ℚ) × List ℕ) :=
  fun qs st =>
    match st with
    | none => ([[3/5, 3/10, 1/10]], [1])
    | some _ =>
        (qs.map (fun q =>
          if q.headD 0 = 0 then [7/20, 2/5, 1/4] else [9/10, 1/20, 1/20]),
         qs.map (fun _ => 2))

/-- Vocab-3 oracle with a second generation step: as `oracleShift3` at step
counter 1, and at counter 2 the row for last token 0 is `(1/2, 3/10, 1/5)`
and for last token 1 is `(19/20, 3/100, 1/50)`. -/
def oracleShift3b : List (List ℕ) → Option (List ℕ) → (List (List ℚ) × List ℕ) :=
  fun qs st =>
    match st with
    | none => ([[3/5, 3/10, 1/10]], [1])
    | some sts =>
        let c := sts.headD 0
        (qs.map (fun q =>
          if c = 1 then
            (if q.headD 0 = 0 then [7/20, 2/5, 1/4] else [9/10, 1/20, 1/20])
          else
            (if q.headD 0 = 0 then [1/2, 3/10, 1/5] else [19/20, 3/100, 1/50])),
         qs.map (fun _ => c + 1))

/-- Two-history oracle: the history starting with token 0 behaves uniformly,
the one starting with token 1 gets root `(1/4, 3/4)` and step row
`(1/3, 2/3)` after last token 1, so its renormalized sorted surface contains
the value `2/3` used as the NaN marker. -/
def oracleNanPair : List (List ℕ) → Option (List ℕ) → (List (List ℚ) × List ℕ) :=
  fun qs st =>
    match st with
    | none =>
        (if (qs.headD []).headD 0 = 0 then ([[1/2, 1/2]], [1]) else ([[1/4, 3/4]], [1]))
    | some _ =>
        (qs.map (fun q => if q.headD 0 = 0 then [1/2, 1/2] else [1/3, 2/3]),
         qs.map (fun _ => 2))

/-- Constant oracle over a one-token vocabulary, used by the small witness
runs of the loop theorems. -/
def wbModel : List (List ℕ) → Option (List ℕ) → (List (List ℚ) × List ℕ) :=
  fun qs _ => (qs.map (fun _ => [1]), qs.map (fun _ => 9))

/-- A finished beam-search history record (generation length 1 already
reached). -/
def wbH0 : BSHist MulLog ℕ := ⟨[[0, 5]], [mulLg 1], [0], [7], [1], [1], [], [], []⟩

/-- A still-active beam-search history record. -/
def wbH1 : BSHist MulLog ℕ := ⟨[[1, 0]], [mulLg 1], [0], [3], [1], [1], [], [], []⟩

/-- A finished importance-sampling history record. -/
def wiH0 : ISHist MulLog ℕ := ⟨[[0, 5]], [mulLg 1], [7]⟩

/-- A still-active importance-sampling history record. -/
def wiH1 : ISHist MulLog ℕ := ⟨[[1, 0]], [mulLg 1], [3]⟩

/-! ## The closed beam-search runs used by the claim theorems -/

/-- C1 run: history `[0]`, vocab 3, fixed width 2, one root and one
generation step, no exclusions, `eps = 0`. -/
def runStoredLp : Except String (List (BSHist MulLog ℕ) × List (ℕ × ℕ)) :=
  sampleBeamSearchTop (fun c _ => c) oracleShift3 mulLg mulEx (fun _ => false)
    [[0]] 3 (.intW 2) [3] [] 0 .fixed_width

/-- C2 run: history `[0]`, vocab 2, excluded `{1}`, fixed width 2 (equal to
the vocabulary), one generation step, default `eps = 1e-10`. -/
def runExcl : Except String (List (BSHist MulLog ℕ) × List (ℕ × ℕ)) :=
  sampleBeamSearchTop (fun c _ => c) oracleUniform2 mulLg mulEx (fun _ => false)
    [[0]] 2 (.intW 2) [2] [1] (1 / 10000000000) .fixed_width

/-- C3 run: histories `[0]` and `[1]`, vocab 2, fixed width 1, two
generation steps; the NaN test is the marker predicate `q = 2/3`, which
fires only on history 1's renormalized sorted surface at position 1. -/
def runNanPair : Except String (List (BSHist MulLog ℕ) × List (ℕ × ℕ)) :=
  sampleBeamSearchTop (fun c _ => c) oracleNanPair mulLg mulEx
    (fun q => decide (q = 2/3)) [[0], [1]] 2 (.intW 1) [3, 3] [] 0 .fixed_width

/-- C4 run: history `[0]`, vocab 2, fixed width 3 (exceeding the
vocabulary), two generation steps. -/
def runWide : Except String (List (BSHist MulLog ℕ) × List (ℕ × ℕ)) :=
  sampleBeamSearchTop (fun c _ => c) oracleUniform2 mulLg mulEx (fun _ => false)
    [[0]] 2 (.intW 3) [3] [] 0 .fixed_width

/-- C6 run: history `[0]`, vocab 3, fixed width 2, three positions
(two executed generation steps), no exclusions, `eps = 0`. -/
def runIncLp : Except String (List (BSHist MulLog ℕ) × List (ℕ × ℕ)) :=
  sampleBeamSearchTop (fun c _ => c) oracleShift3b mulLg mulEx (fun _ => false)
    [[0]] 3 (.intW 2) [4] [] 0 .fixed_width

/-! ## Helper lemmas -/

attribute [local semireducible] Rat.mul Rat.inv Rat.add Rat.sub Rat.ofScientific

theorem backoffThreshold_eq_pow (orig : ℚ) (t : ℕ) :
    backoffThreshold orig t = orig ^ (t + 1) := by
  induction t with
  | zero => simp [backoffThreshold]
  | succ n ih => simp [backoffThreshold, get_beam_coverage, ih, pow_succ]

theorem length_insertDescBy {R : Type} [LinearOrder R] (x : R × ℕ)
    (l : List (R × ℕ)) : (insertDescBy x l).length = l.length + 1 := by
  induction l with
  | nil => rfl
  | cons y ys ih =>
      simp only [insertDescBy]
      split
      · simp
      · simp [ih]

theorem length_sortDescEnum {R : Type} [LinearOrder R] (l : List (R × ℕ)) :
    (sortDescEnum l).length = l.length := by
  induction l with
  | nil => rfl
  | cons x xs ih =>
      show (insertDescBy x (sortDescEnum xs)).length = xs.length + 1
      rw [length_insertDescBy, ih]

theorem length_torchSortDesc_fst {R : Type} [LinearOrder R] (l : List R) :
    (torchSortDesc l).1.length = l.length := by
  simp [torchSortDesc, length_sortDescEnum]

theorem length_torchSortDesc_snd {R : Type} [LinearOrder R] (l : List R) :
    (torchSortDesc l).2.length = l.length := by
  simp [torchSortDesc, length_sortDescEnum]

theorem getD_map_range {α : Type} (f : ℕ → α) (n i : ℕ) (d : α) (hi : i < n) :
    ((List.range n).map f).getD i d = f i := by
  simp [List.getD_eq_getElem?_getD, List.getElem?_range, hi]

theorem getD_map_lt {α β : Type} (f : α → β) (l : List α) (j : ℕ) (d : β)
    (dflt : α) (h : j < l.length) : (l.map f).getD j d = f (l.getD j dflt) := by
  simp [List.getD_eq_getElem?_getD, List.getElem?_map, List.getElem?_eq_getElem h]

theorem maskAssignRow_nonneg (excluded : List ℕ) (eps : ℚ) (row : List ℚ)
    (heps : 0 ≤ eps) (hpos : ∀ p ∈ row, 0 ≤ p) :
    ∀ p ∈ maskAssignRow excluded eps row, 0 ≤ p := by
  intro p hp
  unfold maskAssignRow at hp
  rcases List.mem_map.1 hp with ⟨k, hk, hfk⟩
  by_cases hke : k ∈ excluded
  · rw [← hfk]
    simp only [hke, if_true]
    linarith
  · rw [← hfk]
    simp only [hke, if_false]
    have hk' : k < row.length := List.mem_range.1 hk
    have hmem : row.getD k 0 ∈ row := by
      rw [List.getD_eq_getElem?_getD, List.getElem?_eq_getElem hk']
      exact List.getElem_mem hk'
    exact hpos _ hmem

theorem list_sum_pos_of_getD (l : List ℚ) (hnn : ∀ p ∈ l, 0 ≤ p) (j : ℕ)
    (hj : j < l.length) (hpos : 0 < l.getD j 0) : 0 < l.sum := by
  induction l generalizing j with
  | nil => simp at hj
  | cons a t ih =>
      cases j with
      | zero =>
          have ha : 0 < a := by simpa using hpos
          have ht : 0 ≤ t.sum := List.sum_nonneg (fun x hx => hnn x (List.mem_cons_of_mem a hx))
          simpa using add_pos_of_pos_of_nonneg ha ht
      | succ j =>
          have ha : 0 ≤ a := hnn a (List.mem_cons_self a t)
          have ht : 0 < t.sum := by
            refine ih (fun x hx => hnn x (List.mem_cons_of_mem a hx)) j ?_ ?_
            · simpa using hj
            · simpa using hpos
          simpa using add_pos_of_nonneg_of_pos ha ht

/-! ## Claim C5 — backoff threshold geometry -/

/-- C5 (amended): for a scalar backoff coverage `c`, preparation yields the
symbolic per-step root `c^{1/seq_lens[i]}` for every history and marks the
run percentile; with `orig` the positive `S`-th root of `c`, the threshold
sequence starts at `orig`, each subsequent threshold is the previous one
times `orig`, and the threshold applied at the final (`S`-th) step equals
`c`.  (The product of the `S` per-step thresholds is *not* `c`; see the
counterexample.) -/
theorem backoff_threshold_geometry (c orig : ℚ) (S : ℕ) (hS : 1 ≤ S)
    (h0 : 0 < orig) (hpow : orig ^ S = c) :
    (∀ n sls, prepare_beams_backoff (.floatW c) n sls =
        .ok ((List.range n).map (fun i => BeamVal.rootv c (sls.getD i 0)), true)) ∧
    backoffThreshold orig 0 = orig ∧
    (∀ t, backoffThreshold orig (t + 1) = backoffThreshold orig t * orig) ∧
    backoffThreshold orig (S - 1) = c := by
  refine ⟨fun n sls => rfl, rfl, fun t => rfl, ?_⟩
  rw [backoffThreshold_eq_pow, Nat.sub_add_cancel hS]
  exact hpow

theorem backoff_threshold_geometry_witness :
    (1 : ℕ) ≤ 2 ∧ (0 : ℚ) < 1/2 ∧ ((1/2 : ℚ)) ^ (2 : ℕ) = 1/4 ∧
    backoffThreshold (1/2) (2 - 1) = (1/4 : ℚ) :=
  ⟨by norm_num, by norm_num, by norm_num,
    (backoff_threshold_geometry (1/4) (1/2) 2 (by norm_num) (by norm_num)
      (by norm_num)).2.2.2⟩

/-- C5 counterexample: with coverage `c = 1/4` over `S = 2` generation steps
the per-step root is `orig = 1/2` (`orig^2 = c`, `orig > 0`), but the product
of the two per-step thresholds is `1/2 * 1/4 = 1/8 ≠ 1/4 = c` — the claimed
product identity fails for every `S ≥ 2`. -/
theorem backoff_threshold_product_counterexample :
    (0 : ℚ) < 1/2 ∧ ((1/2 : ℚ)) ^ (2 : ℕ) = 1/4 ∧
    backoffThreshold (1/2) 0 * backoffThreshold (1/2) 1 = 1/8 ∧
    ((1/8 : ℚ) ≠ 1/4) := by
  refine ⟨by norm_num, by norm_num, ?_, by norm_num⟩
  norm_num [backoffThreshold, get_beam_coverage]

/-! ## Claim C7 — beam-width argument validation -/

/-- C7 (amended): only list-length mismatches (both preparers), non-numeric
arguments, and out-of-range scalars *under the interpolate policy* fail fast
with a descriptive error; the backoff/fixed-width preparer accepts any scalar
float coverage without range validation, and a list is classified by its
first element only, so a mixed list starting with an `int` is passed through
untouched.  A preparation failure aborts `sample_beam_search` before any
oracle query. -/
theorem prepare_beams_validation_behaviour :
    (∀ xs n sls, xs.length ≠ n →
        prepare_beams_backoff (.listW xs) n sls =
          .error "Histories and beam widths not aligned") ∧
    (∀ (root : ℚ → ℤ → ℚ) xs n sls, xs.length ≠ n →
        prepare_beams_interpolate root (.listW xs) n sls =
          .error "Histories and beam widths not aligned") ∧
    (∀ n sls, prepare_beams_backoff .otherW n sls =
        .error "Beam data type must be int, float or List[int/float]") ∧
    (∀ (root : ℚ → ℤ → ℚ) q n sls, ¬ (0 < q ∧ q < 1) →
        prepare_beams_interpolate root (.floatW q) n sls =
          .error "Coverage must be between 0 and 1") ∧
    (∀ (q : ℚ) n sls, prepare_beams_backoff (.floatW q) n sls =
        .ok ((List.range n).map (fun i => BeamVal.rootv q (sls.getD i 0)), true)) ∧
    (∀ a rest n sls, (BWElem.intE a :: rest).length = n →
        prepare_beams_backoff (.listW (BWElem.intE a :: rest)) n sls =
          .ok ((BWElem.intE a :: rest).map bwElemRaw, false)) ∧
    (∀ (R S : Type) (_ : LinearOrder R) (_ : Add R) (_ : Inhabited R)
        (_ : Inhabited S) (rootQ : ℚ → ℤ → ℚ)
        (model : List (List ℕ) → Option (List S) → (List (List ℚ) × List S))
        (lg : ℚ → R) (ex : R → ℚ) (isnanQ : ℚ → Bool) histories vocab
        beamWidths totalSeqLens excluded eps ct m,
        prepare_beams rootQ ct beamWidths histories.length
            (seqLensZOf histories totalSeqLens) = .error m →
        sampleBeamSearchTop rootQ model lg ex isnanQ histories vocab beamWidths
            totalSeqLens excluded eps ct = .error m) := by
  refine ⟨?_, ?_, fun n sls => rfl, ?_, fun q n sls => rfl, ?_, ?_⟩
  · intro xs n sls h
    simp [prepare_beams_backoff, h]
  · intro root xs n sls h
    simp [prepare_beams_interpolate, h]
  · intro root q n sls h
    simp [prepare_beams_interpolate, h]
  · intro a rest n sls h
    simp [prepare_beams_backoff, h, List.headD]
  · intro R S _ _ _ _ rootQ model lg ex isnanQ histories vocab beamWidths
      totalSeqLens excluded eps ct m herr
    simp [sampleBeamSearchTop, herr]

theorem prepare_beams_validation_behaviour_witness :
    prepare_beams_backoff (.listW [.intE 3]) 2 [5, 5] =
      .error "Histories and beam widths not aligned" ∧
    prepare_beams_interpolate (fun c _ => c) (.listW [.intE 3]) 2 [5, 5] =
      .error "Histories and beam widths not aligned" ∧
    prepare_beams_interpolate (fun c _ => c) (.floatW 2) 1 [5] =
      .error "Coverage must be between 0 and 1" ∧
    prepare_beams_backoff (.listW [BWElem.intE 1, BWElem.floatE (1/2)]) 2 [5, 5] =
      .ok ([BeamVal.ival 1, BeamVal.fval (1/2)], false) ∧
    sampleBeamSearchTop (fun c _ => c) oracleUniform2 mulLg mulEx
        (fun _ => false) [[0]] 2 .otherW [2] [] 0 .fixed_width =
      .error "Beam data type must be int, float or List[int/float]" :=
  ⟨prepare_beams_validation_behaviour.1 _ _ _ (by decide),
   prepare_beams_validation_behaviour.2.1 _ _ _ _ (by decide),
   prepare_beams_validation_behaviour.2.2.2.1 _ _ _ _ (by norm_num),
   prepare_beams_validation_behaviour.2.2.2.2.2.1 1 _ _ _ (by decide),
   prepare_beams_validation_behaviour.2.2.2.2.2.2 MulLog ℕ _ _ _ _ _ _ _ _ _
     _ _ _ _ _ _ _ _ (by decide)⟩

/-- C7 counterexample: a scalar coverage fraction of `3/2`, outside `(0,1)`,
is accepted without any error by the (default) backoff preparer — the
claimed fail-fast validation does not happen for this malformed argument. -/
theorem scalar_coverage_out_of_range_accepted :
    prepare_beams_backoff (.floatW (3/2)) 1 [5] =
      .ok ([BeamVal.rootv (3/2) 5], true) := rfl

/-! ## Claim C3 — NaN handling aborts the whole batch -/

/-- C3 counterexample: in a two-history batch where only history 1's
renormalized sorted surface trips the NaN test (the marker value `2/3`),
the entire call returns the assertion error — history 0's partial results
are not returned and no per-history status flag exists. -/
theorem nan_aborts_whole_batch :
    runNanPair = .error "Nans in sorted probabilities" := by decide

/-! ## Claim C4 — requested width exceeding the vocabulary -/

/-- C4 counterexample: with vocabulary size 2, fixed width `W = 3` and two
generation steps for a single history, the final frontier holds 3
candidates, not `min(W, vocab_size) = 2`: the clamp happens only at the
root (by slicing), while later steps keep `min(W, w·vocab)` flattened
entries. -/
theorem width_exceeding_vocab_not_clamped :
    runWide.map (fun out => out.1.map (fun h => h.seqs.length)) = .ok [3] ∧
    (3 : ℕ) ≠ min 3 2 := by decide

/-! ## Claim C10 — interpolate with a single generation step -/

/-- C10: for the interpolate policy with scalar float coverage, a history
whose generation length is 1 makes the step divisor `seq_lens[i] - 1` zero;
since the per-step root of a length-1 history is `c` itself, the computed
step is `0/0 = NaN` — not a finite number — and preparation still succeeds
with no configuration error. -/
theorem interpolate_step_nan_on_unit_generation (root : ℚ → ℤ → ℚ) (c : ℚ)
    (n : ℕ) (sls : List ℤ) (i : ℕ) (hc0 : 0 < c) (hc1 : c < 1)
    (hroot : root c 1 = c) (hi : i < n) (hsl : sls.getD i 0 = 1) :
    ∃ out, prepare_beams_interpolate root (.floatW c) n sls = .ok out ∧
      out.2.1 = true ∧
      out.2.2.getD i NumF.inf = NumF.nan ∧
      NumF.isFinite (out.2.2.getD i NumF.inf) = false := by
  have hrange : 0 < c ∧ c < 1 := ⟨hc0, hc1⟩
  have hout : prepare_beams_interpolate root (.floatW c) n sls =
      .ok ((List.range n).map (fun j => BeamVal.rootv c (sls.getD j 0)), true,
           (List.range n).map (fun j =>
             interpolateStepEntry (root c (sls.getD j 0)) c (sls.getD j 0))) := by
    simp only [prepare_beams_interpolate]
    rw [if_pos hrange]
  refine ⟨_, hout, rfl, ?_, ?_⟩
  · rw [getD_map_range _ _ _ _ hi, hsl, hroot]
    simp [interpolateStepEntry, NumF.sub, NumF.div]
  · rw [getD_map_range _ _ _ _ hi, hsl, hroot]
    simp [interpolateStepEntry, NumF.sub, NumF.div, NumF.isFinite]

theorem catLists_length_const {α : Type} (L : List (List α)) (k : ℕ)
    (h : ∀ x ∈ L, x.length = k) : (catLists L).length = L.length * k := by
  induction L with
  | nil => simp [catLists]
  | cons x xs ih =>
      have hx := h x (List.mem_cons_self x xs)
      have hxs := ih (fun y hy => h y (List.mem_cons_of_mem x hy))
      simp only [catLists, List.length_append, List.length_cons, hx, hxs]
      ring

theorem get_beam_width_natCast (Wn : ℕ) (l : List ℚ) :
    get_beam_width (Wn : ℚ) l false = Wn := by
  simp [get_beam_width]

theorem any_eq_false_of (p : ℚ → Bool) (hp : ∀ q, p q = false) (l : List ℚ) :
    l.any p = false := by
  induction l with
  | nil => rfl
  | cons a t ih => simp [List.any_cons, hp, ih]

theorem getD_tail {α : Type} (l : List α) (k : ℕ) (d : α) :
    l.tail.getD k d = l.getD (k + 1) d := by
  cases l <;> simp

theorem bsCalls_mem (seqLens : List ℤ) (pos : ℕ) :
    ∀ (n i0 : ℕ) (c : ℕ × ℕ), c ∈ bsCalls seqLens pos i0 n →
      c.1 = pos ∧ (pos : ℤ) < seqLens.getD c.2 0 := by
  intro n
  induction n with
  | zero => intro i0 c hc; simp [bsCalls] at hc
  | succ m ih =>
      intro i0 c hc
      simp only [bsCalls] at hc
      rcases List.mem_append.1 hc with h | h
      · by_cases hact : (pos : ℤ) < seqLens.getD i0 0
        · rw [if_pos hact] at h
          rcases List.mem_singleton.1 h with rfl
          exact ⟨rfl, hact⟩
        · rw [if_neg hact] at h
          simp at h
      · exact ih (i0 + 1) c h

section LoopLemmas

variable {R S : Type} [LinearOrder R] [Add R] [Inhabited R] [Inhabited S]
variable (model : List (List ℕ) → Option (List S) → (List (List ℚ) × List S))
variable (lg : ℚ → R) (ex : R → ℚ) (isnanQ : ℚ → Bool) (vocab : ℕ)
variable (excluded : List ℕ) (eps : ℚ) (percentile : Bool) (ct : CoverageType)
variable (iSteps origCov : List ℚ) (seqLens : List ℤ)

theorem bsPhase1_getD_none (pos : ℕ) :
    ∀ (hists : List (BSHist R S)) (i0 k : ℕ),
      seqLens.getD (i0 + k) 0 ≤ (pos : ℤ) →
      (bsPhase1 model eps seqLens pos i0 hists).getD k none = none := by
  intro hists
  induction hists with
  | nil => intro i0 k h; simp [bsPhase1]
  | cons h hs ih =>
      intro i0 k hk
      cases k with
      | zero =>
          simp only [bsPhase1, List.getD_cons_zero]
          rw [if_neg (not_lt.2 (by simpa using hk))]
      | succ k =>
          simp only [bsPhase1, List.getD_cons_succ]
          refine ih (i0 + 1) k ?_
          have : i0 + 1 + k = i0 + (k + 1) := by omega

          rw [this]
          exact hk

theorem bsPhase2_ok_length :
    ∀ (hs : List (BSHist R S)) (i0 : ℕ) os res,
      bsPhase2 lg ex isnanQ vocab excluded eps percentile ct iSteps origCov i0 hs os = .ok res →
      res.length = hs.length := by
  intro hs
  induction hs with
  | nil =>
      intro i0 os res h
      simp only [bsPhase2] at h
      cases h
      rfl
  | cons hd tl ih =>
      intro i0 os res h
      simp only [bsPhase2] at h
      cases hupd : bsUpdateHist lg ex isnanQ vocab excluded eps percentile ct iSteps origCov i0 hd (os.headD none) with
      | error e => rw [hupd] at h; cases h
      | ok h' =>
          rw [hupd] at h
          cases hrest : bsPhase2 lg ex isnanQ vocab excluded eps percentile ct iSteps origCov (i0 + 1) tl os.tail with
          | error e => rw [hrest] at h; cases h
          | ok res' =>
              rw [hrest] at h
              cases h
              simp [ih _ _ _ hrest]

theorem bsPhase2_ok_getD_frozen :
    ∀ (hs : List (BSHist R S)) (i0 : ℕ) os res k,
      bsPhase2 lg ex isnanQ vocab excluded eps percentile ct iSteps origCov i0 hs os = .ok res →
      os.getD k none = none →
      res.getD k default = hs.getD k default := by
  intro hs
  induction hs with
  | nil =>
      intro i0 os res k h _
      simp only [bsPhase2] at h
      cases h
      rfl
  | cons hd tl ih =>
      intro i0 os res k h hos
      simp only [bsPhase2] at h
      cases hupd : bsUpdateHist lg ex isnanQ vocab excluded eps percentile ct iSteps origCov i0 hd (os.headD none) with
      | error e => rw [hupd] at h; cases h
      | ok h' =>
          rw [hupd] at h
          cases hrest : bsPhase2 lg ex isnanQ vocab excluded eps percentile ct iSteps origCov (i0 + 1) tl os.tail with
          | error e => rw [hrest] at h; cases h
          | ok res' =>
              rw [hrest] at h
              cases h
              cases k with
              | zero =>
                  have hhead : os.headD none = none := by
                    cases os <;> simpa using hos
                  rw [hhead] at hupd
                  cases hupd
                  rfl
              | succ k =>
                  simp only [List.getD_cons_succ]
                  exact ih (i0 + 1) os.tail res' k hrest (by rw [getD_tail]; exact hos)

theorem bsInner_ok_spec :
    ∀ (ps : List ℕ) (hists : List (BSHist R S)) out tr,
      bsInner model lg ex isnanQ vocab excluded eps percentile ct iSteps origCov seqLens ps hists = .ok (out, tr) →
      (∀ c ∈ tr, (c.1 : ℤ) < seqLens.getD c.2 0) ∧
      out.length = hists.length ∧
      ∀ i, (∀ p ∈ ps, seqLens.getD i 0 ≤ (p : ℤ)) →
        out.getD i default = hists.getD i default := by
  intro ps
  induction ps with
  | nil =>
      intro hists out tr h
      simp only [bsInner] at h
      cases h
      exact ⟨by simp, rfl, fun i _ => rfl⟩
  | cons pos rest ih =>
      intro hists out tr h
      simp only [bsInner] at h
      split at h
      · cases h
      · rename_i hists' hp2
        split at h
        · cases h
        · rename_i r hin
          obtain ⟨out', tr'⟩ := r
          cases h
          obtain ⟨htr', hlen', hfro'⟩ := ih hists' out' tr' hin
          refine ⟨?_, ?_, ?_⟩
          · intro c hc
            rcases List.mem_append.1 hc with hcall | htail
            · exact ((bsCalls_mem seqLens pos _ _ c hcall).1 ▸
                (bsCalls_mem seqLens pos _ _ c hcall).2)
            · exact htr' c htail
          · exact hlen'.trans (bsPhase2_ok_length lg ex isnanQ vocab excluded eps percentile ct iSteps origCov hists 0 _ _ hp2)
          · intro i hdone
            have hstep : seqLens.getD i 0 ≤ (pos : ℤ) :=
              hdone pos (List.mem_cons_self pos rest)
            have hfrozen1 : hists'.getD i default = hists.getD i default := by
              refine bsPhase2_ok_getD_frozen lg ex isnanQ vocab excluded eps percentile ct iSteps origCov hists 0 _ _ i hp2 ?_
              refine bsPhase1_getD_none model eps seqLens pos hists 0 i ?_
              simpa using hstep
            have hfrozen2 : out'.getD i default = hists'.getD i default :=
              hfro' i (fun p hp => hdone p (List.mem_cons_of_mem pos hp))
            exact hfrozen2.trans hfrozen1

end LoopLemmas

section ISLoopLemmas

variable {R S : Type} [Add R] [Inhabited R] [Inhabited S]
variable (model : List (List ℕ) → Option (List S) → (List (List ℚ) × List S))
variable (gf : ℤ → ℕ → ℚ) (lg : ℚ → R) (excluded : List ℕ) (eps : ℚ)
variable (seqLens : List ℤ)

theorem isPhase1_getD_none (pos : ℕ) :
    ∀ (hists : List (ISHist R S)) (i0 k : ℕ),
      seqLens.getD (i0 + k) 0 ≤ (pos : ℤ) →
      (isPhase1 model eps seqLens pos i0 hists).getD k none = none := by
  intro hists
  induction hists with
  | nil => intro i0 k h; simp [isPhase1]
  | cons h hs ih =>
      intro i0 k hk
      cases k with
      | zero =>
          simp only [isPhase1, List.getD_cons_zero]
          rw [if_neg (not_lt.2 (by simpa using hk))]
      | succ k =>
          simp only [isPhase1, List.getD_cons_succ]
          refine ih (i0 + 1) k ?_
          have : i0 + 1 + k = i0 + (k + 1) := by omega
          rw [this]
          exact hk

theorem isPhase2_length :
    ∀ (hs : List (ISHist R S)) os r,
      (isPhase2 gf lg excluded eps hs os r).1.length = hs.length := by
  intro hs
  induction hs with
  | nil => intro os r; simp [isPhase2]
  | cons hd tl ih => intro os r; simp [isPhase2, ih]

theorem isPhase2_getD_frozen :
    ∀ (hs : List (ISHist R S)) os r k,
      os.getD k none = none →
      (isPhase2 gf lg excluded eps hs os r).1.getD k default = hs.getD k default := by
  intro hs
  induction hs with
  | nil => intro os r k _; simp [isPhase2]
  | cons hd tl ih =>
      intro os r k hos
      cases k with
      | zero =>
          have hhead : os.headD none = none := by
            cases os <;> simpa using hos
          simp only [isPhase2, List.getD_cons_zero]
          rw [hhead]
          rfl
      | succ k =>
          simp only [isPhase2, List.getD_cons_succ]
          exact ih os.tail _ k (by rw [getD_tail]; exact hos)

theorem isInner_spec :
    ∀ (ps : List ℕ) (hists : List (ISHist R S)) (r : Rng),
      (∀ c ∈ (isInner model gf lg excluded eps seqLens ps hists r).2.2,
        (c.1 : ℤ) < seqLens.getD c.2 0) ∧
      (isInner model gf lg excluded eps seqLens ps hists r).1.length = hists.length ∧
      ∀ i, (∀ p ∈ ps, seqLens.getD i 0 ≤ (p : ℤ)) →
        (isInner model gf lg excluded eps seqLens ps hists r).1.getD i default =
          hists.getD i default := by
  intro ps
  induction ps with
  | nil =>
      intro hists r
      exact ⟨by simp [isInner], rfl, fun i _ => rfl⟩
  | cons pos rest ih =>
      intro hists r
      obtain ⟨htr, hlen, hfro⟩ := ih (isPhase2 gf lg excluded eps hists
        (isPhase1 model eps seqLens pos 0 hists) r).1
        (isPhase2 gf lg excluded eps hists
          (isPhase1 model eps seqLens pos 0 hists) r).2
      refine ⟨?_, ?_, ?_⟩
      · intro c hc
        simp only [isInner] at hc
        rcases List.mem_append.1 hc with hcall | htail
        · exact ((bsCalls_mem seqLens pos _ _ c hcall).1 ▸
            (bsCalls_mem seqLens pos _ _ c hcall).2)
        · exact htr c htail
      · simp only [isInner]
        exact hlen.trans (isPhase2_length gf lg excluded eps hists _ _)
      · intro i hdone
        have hstep : seqLens.getD i 0 ≤ (pos : ℤ) :=
          hdone pos (List.mem_cons_self pos rest)
        have hfrozen1 : (isPhase2 gf lg excluded eps hists
            (isPhase1 model eps seqLens pos 0 hists) r).1.getD i default =
            hists.getD i default := by
          refine isPhase2_getD_frozen gf lg excluded eps hists _ _ i ?_
          refine isPhase1_getD_none model eps seqLens pos hists 0 i ?_
          simpa using hstep
        simp only [isInner]
        exact (hfro i (fun p hp => hdone p (List.mem_cons_of_mem pos hp))).trans hfrozen1

end ISLoopLemmas

section FixedWidthLemmas

variable {R S : Type} [LinearOrder R] [Add R] [Inhabited R] [Inhabited S]
variable (model : List (List ℕ) → Option (List S) → (List (List ℚ) × List S))
variable (lg : ℚ → R) (ex : R → ℚ) (isnanQ : ℚ → Bool)
variable (vocab W : ℕ) (excluded : List ℕ) (eps : ℚ)
variable (iSteps origCov : List ℚ) (seqLens : List ℤ)

theorem bsUpdateHist_fixed_ok (hnan : ∀ q, isnanQ q = false) (hv : 1 ≤ vocab)
    (i : ℕ) (h : BSHist R S) (np0 : List (List ℚ)) (sts : List S)
    (hrows : np0.length = h.seqs.length)
    (hcols : ∀ row ∈ np0, row.length = vocab)
    (hP1 : h.seqs.length = W) (hP2 : W ≤ h.slpVals.length)
    (hP3 : h.widths.getLastD 0 = W) (hP4 : h.coverages.getLastD 0 = (W : ℚ)) :
    ∃ h', bsUpdateHist lg ex isnanQ vocab excluded eps false .fixed_width iSteps
        origCov i h (some (np0, sts)) = .ok h' ∧
      h'.seqs.length = W ∧ W ≤ h'.slpVals.length ∧
      h'.widths.getLastD 0 = W ∧ h'.coverages.getLastD 0 = (W : ℚ) := by
  have hnp_len : (np0.map (fun row => normalizeRow (maskAssignRow excluded eps row))).length = W := by
    simp [hrows, hP1]
  have hnp_cols : ∀ row ∈ np0.map (fun row => normalizeRow (maskAssignRow excluded eps row)),
      row.length = vocab := by
    intro row hr
    rcases List.mem_map.1 hr with ⟨r0, hr0, rfl⟩
    simp [normalizeRow, maskAssignRow, hcols r0 hr0]
  have hjoint : (bsJoint lg h (np0.map (fun row => normalizeRow (maskAssignRow excluded eps row)))).length = W * vocab := by
    unfold bsJoint
    rw [hP3]
    refine (catLists_length_const _ vocab ?_).trans ?_
    · intro x hx
      rcases List.mem_map.1 hx with ⟨pr, hpr, rfl⟩
      have hmem := (List.of_mem_zip hpr).2
      simp [hnp_cols _ hmem]
    · rw [List.length_map, List.length_zip, List.length_take, hnp_len]
      have : min W h.slpVals.length = W := Nat.min_eq_left hP2
      rw [this, Nat.min_self]
  have hWle : W ≤ W * vocab := by
    calc W = W * 1 := (Nat.mul_one W).symm
    _ ≤ W * vocab := Nat.mul_le_mul_left W hv
  simp only [bsUpdateHist]
  rw [any_eq_false_of isnanQ hnan]
  simp only [Bool.false_eq_true, if_false, hP4, get_beam_width_natCast]
  refine ⟨_, rfl, ?_, ?_, ?_, ?_⟩
  · simp [List.length_zip, List.length_take, length_torchSortDesc_snd, hjoint,
      Nat.min_eq_left hWle]
  · simp [List.length_take, length_torchSortDesc_snd, hjoint, Nat.min_eq_left hWle]
  · simp [List.getLastD_concat]
  · exact hP4

theorem bsRootHist_fixed_inv (hW : W ≤ vocab)
    (hshape : ∀ qs st, (model qs st).1.length = qs.length ∧
      ∀ row ∈ (model qs st).1, row.length = vocab) (history : List ℕ) :
    (bsRootHist model lg vocab excluded eps false (W : ℚ) history : BSHist R S).seqs.length = W ∧
    W ≤ (bsRootHist model lg vocab excluded eps false (W : ℚ) history : BSHist R S).slpVals.length ∧
    (bsRootHist model lg vocab excluded eps false (W : ℚ) history : BSHist R S).widths.getLastD 0 = W ∧
    (bsRootHist model lg vocab excluded eps false (W : ℚ) history : BSHist R S).coverages.getLastD 0 = (W : ℚ) := by
  obtain ⟨hlen1, hcols⟩ := hshape [history] none
  have hrow : ((model [history] none).1.headD []).length = vocab := by
    rcases List.length_eq_one.1 (by simpa using hlen1) with ⟨a, ha⟩
    rw [ha]
    exact hcols a (by rw [ha]; exact List.mem_singleton_self a)
  have hprow : (normalizeRow (maskAssignRow excluded eps
      (addEpsRow eps ((model [history] none).1.headD [])))).length = vocab := by
    simp only [normalizeRow, maskAssignRow, addEpsRow, List.length_map, List.length_range]
    exact hrow
  simp only [bsRootHist]
  rw [get_beam_width_natCast]
  refine ⟨?_, ?_, ?_, ?_⟩
  · simp only [List.length_map, List.length_zip, List.length_take,
      List.length_replicate, length_torchSortDesc_snd, hprow]
    omega
  · simp only [List.length_map, length_torchSortDesc_fst, hprow]
    exact hW
  · simp
  · simp

theorem bsInner_fixed_single (hnan : ∀ q, isnanQ q = false) (hv : 1 ≤ vocab)
    (hshape : ∀ qs st, (model qs st).1.length = qs.length ∧
      ∀ row ∈ (model qs st).1, row.length = vocab) :
    ∀ (ps : List ℕ) (h : BSHist R S),
      h.seqs.length = W → W ≤ h.slpVals.length → h.widths.getLastD 0 = W →
      h.coverages.getLastD 0 = (W : ℚ) →
      ∃ h' tr, bsInner model lg ex isnanQ vocab excluded eps false .fixed_width
          iSteps origCov seqLens ps [h] = .ok ([h'], tr) ∧
        h'.seqs.length = W ∧ W ≤ h'.slpVals.length ∧ h'.widths.getLastD 0 = W ∧
        h'.coverages.getLastD 0 = (W : ℚ) := by
  intro ps
  induction ps with
  | nil => intro h h1 h2 h3 h4; exact ⟨h, [], rfl, h1, h2, h3, h4⟩
  | cons pos rest ih =>
      intro h h1 h2 h3 h4
      by_cases hact : (pos : ℤ) < seqLens.getD 0 0
      · have hphase1 : bsPhase1 model eps seqLens pos 0 [h] =
            [some (((model (h.seqs.map (fun s => [s.getLastD 0])) (some h.states)).1).map (addEpsRow eps),
              (model (h.seqs.map (fun s => [s.getLastD 0])) (some h.states)).2)] := by
          simp only [bsPhase1]
          rw [if_pos hact]
        have hrows : (((model (h.seqs.map (fun s => [s.getLastD 0])) (some h.states)).1).map (addEpsRow eps)).length = h.seqs.length := by
          rw [List.length_map, (hshape _ _).1, List.length_map]
        have hcols : ∀ row ∈ ((model (h.seqs.map (fun s => [s.getLastD 0])) (some h.states)).1).map (addEpsRow eps),
            row.length = vocab := by
          intro row hr
          rcases List.mem_map.1 hr with ⟨r0, hr0, rfl⟩
          simp [addEpsRow, (hshape _ _).2 r0 hr0]
        obtain ⟨h'', hupd, k1, k2, k3, k4⟩ := bsUpdateHist_fixed_ok lg ex isnanQ
          vocab W excluded eps iSteps origCov hnan hv 0 h _ _ hrows hcols h1 h2 h3 h4
        have hphase2 : bsPhase2 lg ex isnanQ vocab excluded eps false .fixed_width
            iSteps origCov 0 [h] (bsPhase1 model eps seqLens pos 0 [h]) = .ok [h''] := by
          rw [hphase1]
          simp only [bsPhase2, List.headD_cons, List.tail_cons]
          rw [hupd]
        obtain ⟨h', tr, hin, m1, m2, m3, m4⟩ := ih h'' k1 k2 k3 k4
        refine ⟨h', bsCalls seqLens pos 0 1 ++ tr, ?_, m1, m2, m3, m4⟩
        simp only [bsInner, List.length_cons, List.length_nil]
        rw [hphase2]
        simp only []
        rw [hin]
      · have hphase1 : bsPhase1 model eps seqLens pos 0 [h] = [none] := by
          simp only [bsPhase1]
          rw [if_neg hact]
        have hphase2 : bsPhase2 lg ex isnanQ vocab excluded eps false .fixed_width
            iSteps origCov 0 [h] (bsPhase1 model eps seqLens pos 0 [h]) = .ok [h] := by
          rw [hphase1]
          simp only [bsPhase2, List.headD_cons, List.tail_cons, bsUpdateHist]
        obtain ⟨h', tr, hin, m1, m2, m3, m4⟩ := ih h h1 h2 h3 h4
        refine ⟨h', bsCalls seqLens pos 0 1 ++ tr, ?_, m1, m2, m3, m4⟩
        simp only [bsInner, List.length_cons, List.length_nil]
        rw [hphase2]
        simp only []
        rw [hin]

end FixedWidthLemmas

/-! ## Claim C4 (amended form) -/

/-- C4 (amended): for a `fixed_width` policy with integer width `W ≤
vocab_size` and a single history, the final frontier contains exactly
`min(W, vocab_size) = W` candidates, for any target length and any
well-shaped oracle.  The restriction `W ≤ vocab_size` is forced by the
counterexample: for `W > vocab_size` the engine clamps only the root (by
slicing), and later steps keep `min(W, w·vocab_size)` flattened entries, so
the frontier grows past `vocab_size`. -/
theorem fixed_width_frontier_size {R S : Type} [LinearOrder R] [Add R]
    [Inhabited R] [Inhabited S] (rootQ : ℚ → ℤ → ℚ)
    (model : List (List ℕ) → Option (List S) → (List (List ℚ) × List S))
    (lg : ℚ → R) (ex : R → ℚ) (isnanQ : ℚ → Bool) (history : List ℕ)
    (vocab W : ℕ) (totalLen : ℤ) (excluded : List ℕ) (eps : ℚ)
    (hW : W ≤ vocab) (hv : 1 ≤ vocab) (hnan : ∀ q, isnanQ q = false)
    (hshape : ∀ qs st, (model qs st).1.length = qs.length ∧
      ∀ row ∈ (model qs st).1, row.length = vocab) :
    ∃ out tr, sampleBeamSearchTop rootQ model lg ex isnanQ [history] vocab
        (.intW (W : ℤ)) [totalLen] excluded eps .fixed_width = .ok (out, tr) ∧
      out.map (fun h => h.seqs.length) = [min W vocab] := by
  have hcast : (((W : ℕ) : ℤ) : ℚ) = (W : ℚ) := by push_cast; rfl
  obtain ⟨hr1, hr2, hr3, hr4⟩ :=
    bsRootHist_fixed_inv model lg vocab W excluded eps hW hshape history
  obtain ⟨h', tr, hin, m1, m2, m3, m4⟩ :=
    bsInner_fixed_single model lg ex isnanQ vocab W excluded eps [] [(W : ℚ)]
      (seqLensZOf [history] [totalLen]) hnan hv hshape
      (List.range' 1 ((seqLensZOf [history] [totalLen]).foldr max 0).toNat)
      (bsRootHist model lg vocab excluded eps false (W : ℚ) history)
      hr1 hr2 hr3 hr4
  refine ⟨[h'], (List.range ([history] : List (List ℕ)).length).map (fun i => ((0 : ℕ), i)) ++ tr, ?_, ?_⟩
  · simp only [sampleBeamSearchTop, prepare_beams, prepare_beams_backoff,
      Except.map, sampleBeamSearchCore, List.length_cons, List.length_nil,
      List.replicate, List.map_cons, List.map_nil, BeamVal.interp,
      List.range_succ, List.range_zero, List.nil_append, List.append_nil,
      List.getD_cons_zero]
    rw [hcast, hin]
  · simp only [List.map_cons, List.map_nil, m1]
    rw [Nat.min_eq_left hW]

theorem fixed_width_frontier_size_witness :
    (1 : ℕ) ≤ 1 ∧
    (∃ out tr, sampleBeamSearchTop (fun c _ => c) wbModel mulLg mulEx
        (fun _ => false) [[0]] 1 (.intW 1) [3] [] 0 .fixed_width = .ok (out, tr) ∧
      out.map (fun h => h.seqs.length) = [min 1 1]) :=
  ⟨le_refl 1,
    fixed_width_frontier_size (fun c _ => c) wbModel mulLg mulEx (fun _ => false)
      [0] 1 1 3 [] 0 (le_refl 1) (le_refl 1) (fun _ => rfl)
      (by
        intro qs st
        constructor
        · simp [wbModel]
        · intro row hr
          simp only [wbModel, List.mem_map] at hr
          rcases hr with ⟨a, ha, rfl⟩
          rfl)⟩

/-! ## Claim C8 — finished histories are frozen -/

/-- C8: in both driving loops, every oracle call `(pos, i)` recorded in the
trace satisfies `pos < seq_lens[i]` — a history that has reached its target
length is never queried again; the result list keeps one slot per input
history, in input order; and a history that is done before every remaining
position keeps its record (sequences, log-probabilities, states) unchanged
in its own slot. -/
theorem done_histories_frozen :
    (∀ (R S : Type) (_ : LinearOrder R) (_ : Add R) (_ : Inhabited R) (_ : Inhabited S)
        (model : List (List ℕ) → Option (List S) → (List (List ℚ) × List S))
        (lg : ℚ → R) (ex : R → ℚ) (isnanQ : ℚ → Bool) (vocab : ℕ)
        (excluded : List ℕ) (eps : ℚ) (percentile : Bool) (ct : CoverageType)
        (iSteps origCov : List ℚ) (seqLens : List ℤ) (ps : List ℕ)
        (hists : List (BSHist R S)) out tr,
        bsInner model lg ex isnanQ vocab excluded eps percentile ct iSteps origCov
            seqLens ps hists = .ok (out, tr) →
        (∀ c ∈ tr, (c.1 : ℤ) < seqLens.getD c.2 0) ∧
        out.length = hists.length ∧
        ∀ i, (∀ p ∈ ps, seqLens.getD i 0 ≤ (p : ℤ)) →
          out.getD i default = hists.getD i default) ∧
    (∀ (R S : Type) (_ : Add R) (_ : Inhabited R) (_ : Inhabited S)
        (model : List (List ℕ) → Option (List S) → (List (List ℚ) × List S))
        (gf : ℤ → ℕ → ℚ) (lg : ℚ → R) (excluded : List ℕ) (eps : ℚ)
        (seqLens : List ℤ) (ps : List ℕ) (hists : List (ISHist R S)) (r : Rng),
        (∀ c ∈ (isInner model gf lg excluded eps seqLens ps hists r).2.2,
          (c.1 : ℤ) < seqLens.getD c.2 0) ∧
        (isInner model gf lg excluded eps seqLens ps hists r).1.length = hists.length ∧
        ∀ i, (∀ p ∈ ps, seqLens.getD i 0 ≤ (p : ℤ)) →
          (isInner model gf lg excluded eps seqLens ps hists r).1.getD i default =
            hists.getD i default) :=
  ⟨fun _ _ _ _ _ _ model lg ex isnanQ vocab excluded eps percentile ct iSteps
      origCov seqLens ps hists out tr h =>
    bsInner_ok_spec model lg ex isnanQ vocab excluded eps percentile ct iSteps
      origCov seqLens ps hists out tr h,
   fun _ _ _ _ _ model gf lg excluded eps seqLens ps hists r =>
    isInner_spec model gf lg excluded eps seqLens ps hists r⟩

theorem done_histories_frozen_witness :
    (∃ out tr,
      bsInner wbModel mulLg mulEx (fun _ => false) 1 [] 0 false .fixed_width []
          [1, 1] [1, 2] [1] [wbH0, wbH1] = .ok (out, tr) ∧
      (∀ c ∈ tr, (c.1 : ℤ) < ([1, 2] : List ℤ).getD c.2 0) ∧
      out.length = 2 ∧
      out.getD 0 default = wbH0) ∧
    (isInner wbModel (fun _ _ => 0) mulLg [] 0 [1, 2] [1] [wiH0, wiH1]
        ⟨0, 0⟩).1.getD 0 default = wiH0 := by
  have heq : bsInner wbModel mulLg mulEx (fun _ => false) 1 [] 0 false .fixed_width []
      [1, 1] [1, 2] [1] [wbH0, wbH1] =
      .ok ([wbH0, ⟨[[1, 0, 0]], [mulLg 1], [0], [9], [1], [1, 1], [[0]],
        [[mulLg 1]], [[mulLg 1]]⟩], [(1, 1)]) := by decide
  obtain ⟨htr, hlen, hfro⟩ := done_histories_frozen.1 MulLog ℕ
    inferInstance inferInstance inferInstance inferInstance wbModel mulLg mulEx
    (fun _ => false) 1 [] 0 false .fixed_width [] [1, 1] [1, 2] [1]
    [wbH0, wbH1] _ _ heq
  have h2 := (done_histories_frozen.2 MulLog ℕ inferInstance inferInstance
    inferInstance wbModel (fun _ _ => 0) mulLg [] 0 [1, 2] [1] [wiH0, wiH1]
    ⟨0, 0⟩).2.2 0 (by decide)
  exact ⟨⟨_, _, heq, htr, by simpa using hlen, hfro 0 (by decide)⟩, h2⟩

/-! ## Claim C9 — seeded reproducibility of importance sampling -/

/-- C9: two runs of `mc_sample_importance` with the same nonzero random seed
set beforehand, the same histories, the same deterministic oracle and the
same parameters produce identical sampled sequences and per-row
log-probabilities: `_set_random_seed` resets the process generator to a pure
function of the seed, erasing whatever RNG state the process held before,
and the sampler draws only from that generator. -/
theorem sampler_seed_reproducibility {R S : Type} [Add R] [Inhabited R]
    [Inhabited S]
    (model : List (List ℕ) → Option (List S) → (List (List ℚ) × List S))
    (gf : ℤ → ℕ → ℚ) (lg : ℚ → R) (seed : ℤ) (hseed : seed ≠ 0)
    (w1 w2 : World) (histories : List (List ℕ)) (num_seqs : ℕ)
    (totalSeqLens : List ℤ) (excluded : List ℕ) (eps : ℚ) :
    seedThenSample model gf lg seed w1 histories num_seqs totalSeqLens excluded eps =
    seedThenSample model gf lg seed w2 histories num_seqs totalSeqLens excluded eps := by
  simp [seedThenSample, setRandomSeedW, hseed]

theorem sampler_seed_reproducibility_witness :
    (1 : ℤ) ≠ 0 ∧
    seedThenSample wbModel (fun _ _ => 0) mulLg 1 ⟨⟨5, 9⟩⟩ [[0]] 2 [2] [] 0 =
      seedThenSample wbModel (fun _ _ => 0) mulLg 1 ⟨⟨-7, 3⟩⟩ [[0]] 2 [2] [] 0 :=
  ⟨by decide, sampler_seed_reproducibility wbModel (fun _ _ => 0) mulLg 1
    (by decide) ⟨⟨5, 9⟩⟩ ⟨⟨-7, 3⟩⟩ [[0]] 2 [2] [] 0⟩

/-! ## Claim C3 — NaN detection aborts everything (amended form) -/

/-- C3 (amended): when the NaN test fires on one history's renormalized
sorted probability surface, the per-history update raises the assertion
error, and any phase-2 error aborts the entire `beam_search_inner_loop`
call with that error: no partial results and no per-history status flags
exist — the whole batch fails together (see the counterexample run). -/
theorem nan_assert_aborts_call :
    (∀ (R S : Type) (_ : LinearOrder R) (_ : Add R) (_ : Inhabited R) (_ : Inhabited S)
        (lg : ℚ → R) (ex : R → ℚ) (isnanQ : ℚ → Bool) (vocab : ℕ)
        (excluded : List ℕ) (eps : ℚ) (percentile : Bool) (ct : CoverageType)
        (iSteps origCov : List ℚ) (i : ℕ) (h : BSHist R S)
        (np0 : List (List ℚ)) (newStates : List S),
        ((bsSortedNorm ex (torchSortDesc (bsJoint lg h (np0.map (fun row =>
            normalizeRow (maskAssignRow excluded eps row))))).1).any isnanQ) = true →
        bsUpdateHist lg ex isnanQ vocab excluded eps percentile ct iSteps origCov i h
          (some (np0, newStates)) = .error "Nans in sorted probabilities") ∧
    (∀ (R S : Type) (_ : LinearOrder R) (_ : Add R) (_ : Inhabited R) (_ : Inhabited S)
        (model : List (List ℕ) → Option (List S) → (List (List ℚ) × List S))
        (lg : ℚ → R) (ex : R → ℚ) (isnanQ : ℚ → Bool) (vocab : ℕ)
        (excluded : List ℕ) (eps : ℚ) (percentile : Bool) (ct : CoverageType)
        (iSteps origCov : List ℚ) (seqLens : List ℤ) (pos : ℕ) (rest : List ℕ)
        (hists : List (BSHist R S)) (m : String),
        bsPhase2 lg ex isnanQ vocab excluded eps percentile ct iSteps origCov 0 hists
          (bsPhase1 model eps seqLens pos 0 hists) = .error m →
        bsInner model lg ex isnanQ vocab excluded eps percentile ct iSteps origCov
          seqLens (pos :: rest) hists = .error m) := by
  constructor
  · intro R S _ _ _ _ lg ex isnanQ vocab excluded eps percentile ct iSteps origCov
      i h np0 newStates hfire
    simp only [bsUpdateHist]
    rw [hfire]
    rfl
  · intro R S _ _ _ _ model lg ex isnanQ vocab excluded eps percentile ct iSteps
      origCov seqLens pos rest hists m herr
    simp only [bsInner]
    rw [herr]

theorem nan_assert_aborts_call_witness :
    bsUpdateHist mulLg mulEx (fun _ => true) 1 [] 0 false .fixed_width [] [1] 0
      (⟨[[0]], [mulLg 1], [0], [0], [1], [1], [], [], []⟩ : BSHist MulLog ℕ)
      (some ([[1]], [0])) = .error "Nans in sorted probabilities" ∧
    bsInner wbModel mulLg mulEx (fun _ => true) 1 [] 0 false .fixed_width [] [1]
      [5] [1] [⟨[[0]], [mulLg 1], [0], [0], [1], [1], [], [], []⟩] =
      .error "Nans in sorted probabilities" :=
  ⟨nan_assert_aborts_call.1 MulLog ℕ inferInstance inferInstance inferInstance
      inferInstance mulLg mulEx (fun _ => true) 1 [] 0 false .fixed_width [] [1] 0
      ⟨[[0]], [mulLg 1], [0], [0], [1], [1], [], [], []⟩ [[1]] [0] (by decide),
   nan_assert_aborts_call.2 MulLog ℕ inferInstance inferInstance inferInstance
      inferInstance wbModel mulLg mulEx (fun _ => true) 1 [] 0 false .fixed_width
      [] [1] [5] 1 [] [⟨[[0]], [mulLg 1], [0], [0], [1], [1], [], [], []⟩]
      "Nans in sorted probabilities" (by decide)⟩

/-! ## Claim C1 — the stored cumulative log-probability of a survivor -/

/-- C1, evaluated at a failing input (code bug): history `[0]`, vocab 3,
fixed width 2, root distribution `(3/5, 3/10, 1/10)`, step rows
`(7/20, 2/5, 1/4)` after token 0 and `(9/10, 1/20, 1/20)` after token 1.
At the generation step the two kept flattened entries have joint values
`log 27/100 > log 24/100` originating from rows 1 and 0 (`origins = [1,0]`),
and the new token sequences are indeed the originating rows' sequences with
the emitted tokens appended; but the stored log-probabilities are
`sorted_vals[seq_inds] = [log 24/100, log 27/100]`, not the kept entries'
own values `[log 27/100, log 24/100]` — the `k`-th survivor's stored
cumulative log-probability differs from the `k`-th kept sorted entry. -/
theorem stored_logprob_not_kept_entry :
    runStoredLp.map (fun out => out.1.map (·.seqs)) = .ok [[[0, 1, 0], [0, 0, 1]]] ∧
    runStoredLp.map (fun out => out.1.map (·.origins)) = .ok [[[1, 0]]] ∧
    runStoredLp.map (fun out => out.1.map (·.slpVals)) =
      .ok [[mulLg (6/25), mulLg (27/100)]] ∧
    runStoredLp.map (fun out => out.1.map (·.keptLog)) =
      .ok [[[mulLg (27/100), mulLg (6/25)]]] ∧
    mulLg (6/25) ≠ mulLg (27/100) := by decide

/-! ## Claim C6 — monotonicity along a survivor's own trajectory -/

/-- C6, evaluated at a failing input (code bug, same root cause as the
stored-log-probability mismatch): continuing the C1 scenario for a second
generation step, the candidate at slot 1 of step 2 originates from row 0
(`origins = [[1,0],[1,0]]`), whose stored cumulative log-probability after
step 1 was `log 6/25`; after step 2 the slot-1 stored value is
`log 513/2000 > log 6/25` — the running log-probability along this
trajectory *increased*. -/
theorem cumulative_logprob_increases :
    runIncLp.map (fun out => out.1.map (·.origins)) = .ok [[[1, 0], [1, 0]]] ∧
    runIncLp.map (fun out => out.1.map (·.slpLog)) =
      .ok [[[mulLg (6/25), mulLg (27/100)],
            [mulLg (3/25), mulLg (513/2000)]]] ∧
    mulLg (6/25) < mulLg (513/2000) := by decide

/-! ## Claim C2 — excluded-token probability mass -/

/-- C2 counterexample: with vocab 2, excluded token 1, fixed width 2 equal
to the vocabulary size, and the default `eps = 1e-10`, the returned frontier
is `[[0,0],[0,1]]`: the excluded token 1 appears in the generated suffix of
the second returned candidate, so it is not assigned zero probability mass
and does appear in a returned candidate. -/
theorem excluded_token_emitted :
    runExcl.map (fun out => out.1.map (·.seqs)) = .ok [[[0, 0], [0, 1]]] ∧
    runExcl.map (fun out =>
      decide (1 ∈ ((out.1.getD 0 default).seqs.getD 1 []).drop 1)) = .ok true := by
  decide

/-- C2 (amended): at every step, every excluded token column is assigned the
mass `eps/2` — strictly positive whenever `eps > 0`, not zero — and after
renormalization the excluded token retains the strictly positive probability
`(eps/2) / (row sum)`.  Excluded tokens are therefore suppressed but never
given zero mass, and they can be emitted (see the counterexample, where the
beam width reaches the vocabulary size). -/
theorem excluded_token_mass_eps_half (excluded : List ℕ) (eps : ℚ)
    (row : List ℚ) (j : ℕ) (hj : j ∈ excluded) (hlen : j < row.length)
    (heps : 0 < eps) (hpos : ∀ p ∈ row, 0 ≤ p) :
    (maskAssignRow excluded eps row).getD j 0 = eps / 2 ∧
    (normalizeRow (maskAssignRow excluded eps row)).getD j 0 =
      (eps / 2) / (maskAssignRow excluded eps row).sum ∧
    0 < (normalizeRow (maskAssignRow excluded eps row)).getD j 0 := by
  have hmask : (maskAssignRow excluded eps row).getD j 0 = eps / 2 := by
    unfold maskAssignRow
    rw [getD_map_range _ _ _ _ hlen]
    simp [hj]
  have hlen2 : j < (maskAssignRow excluded eps row).length := by
    simpa [maskAssignRow] using hlen
  have hnn : ∀ p ∈ maskAssignRow excluded eps row, 0 ≤ p :=
    maskAssignRow_nonneg excluded eps row (le_of_lt heps) hpos
  have hnorm : (normalizeRow (maskAssignRow excluded eps row)).getD j 0 =
      (eps / 2) / (maskAssignRow excluded eps row).sum := by
    unfold normalizeRow
    rw [getD_map_lt _ _ _ _ 0 hlen2, hmask]
  have hsum : 0 < (maskAssignRow excluded eps row).sum := by
    refine list_sum_pos_of_getD _ hnn j hlen2 ?_
    rw [hmask]
    linarith
  refine ⟨hmask, hnorm, ?_⟩
  rw [hnorm]
  positivity

theorem excluded_token_mass_eps_half_witness :
    (0 : ℕ) ∈ [0] ∧ (0 : ℕ) < [((3 : ℚ))/4, 1/4].length ∧ (0 : ℚ) < 1/2 ∧
    (maskAssignRow [0] (1/2) [3/4, 1/4]).getD 0 0 = (1/2) / 2 ∧
    0 < (normalizeRow (maskAssignRow [0] (1/2) [3/4, 1/4])).getD 0 0 := by
  have h := excluded_token_mass_eps_half [0] (1/2) [3/4, 1/4] 0 (by decide)
    (by decide) (by norm_num)
    (by intro p hp; simp at hp; rcases hp with rfl | rfl <;> norm_num)
  exact ⟨by decide, by decide, by norm_num, h.1, h.2.2⟩

theorem interpolate_step_nan_on_unit_generation_witness :
    ∃ out, prepare_beams_interpolate (fun a _ => a) (.floatW (1/2)) 1 [1] = .ok out ∧
      out.2.1 = true ∧
      out.2.2.getD 0 NumF.inf = NumF.nan ∧
      NumF.isFinite (out.2.2.getD 0 NumF.inf) = false :=
  interpolate_step_nan_on_unit_generation (fun a _ => a) (1/2) 1 [1] 0
    (by norm_num) (by norm_num) rfl (by decide) (by decide)

end SeqQueries
